import Mathlib

/-!
# Verification of the Hydropathy Index Plotter core

Shallow embedding of `WebApp/hydropathy_plot.py`.  Python number arithmetic is
modelled exactly: the linear-model pipeline over `ℚ`, and the exponential-model
pipeline over `ℝ` (NumPy `geomspace` interpolates geometrically, so its values
are irrational in general).  Python's `round(x, 3)` is modelled as
`round (x * 1000) / 1000`.  The `KeyError` raised by the scale lookup on an
unknown residue, and propagated unchanged out of `Hydropathicity_array_gen`, is
modelled with `Except Char`, the error payload being the offending symbol
(Python's `KeyError` carries the missing key and nothing else).
-/

set_option autoImplicit false

namespace HydropathyPlot

/-- The `Kyte_Doolittle_scale` dictionary of `Hydropathicity_value_calc`
(source lines 60–81).  A key outside the 20-letter alphabet raises `KeyError`
in Python; here the lookup returns `none`. -/
def Kyte_Doolittle_scale : Char → Option ℚ
  | 'G' => some (-0.4)
  | 'A' => some 1.8
  | 'V' => some 4.2
  | 'L' => some 3.8
  | 'I' => some 4.5
  | 'P' => some (-1.6)
  | 'C' => some 2.5
  | 'M' => some 1.9
  | 'S' => some (-0.8)
  | 'T' => some (-0.7)
  | 'N' => some (-3.5)
  | 'Q' => some (-3.5)
  | 'F' => some 2.8
  | 'Y' => some (-1.3)
  | 'W' => some (-0.9)
  | 'D' => some (-3.5)
  | 'E' => some (-3.5)
  | 'K' => some (-3.9)
  | 'R' => some (-4.5)
  | 'H' => some (-3.2)
  | _ => none

/-- The same scale viewed in `ℝ`, used by the exponential-model pipeline
(the source uses one dictionary of floats for both branches). -/
noncomputable def Kyte_Doolittle_scaleR (c : Char) : Option ℝ :=
  (Kyte_Doolittle_scale c).map (fun q => (q : ℝ))

/-- `np.linspace(a, b, num := n)`: `n` evenly spaced values from `a` to `b`
inclusive (`num = 1` gives `[a]`). -/
def linspace (a b : ℚ) (n : ℕ) : List ℚ :=
  (List.range n).map
    (fun i : ℕ => if n = 1 then a else a + (i : ℚ) * (b - a) / ((n : ℚ) - 1))

/-- `np.geomspace(a, b, num := n)` for positive endpoints: `n` values evenly
spaced on a geometric scale from `a` to `b` inclusive, i.e.
`a * (b / a) ^ (i / (n - 1))` (`num = 1` gives `[a]`). -/
noncomputable def geomspace (a b : ℝ) (n : ℕ) : List ℝ :=
  (List.range n).map
    (fun i : ℕ => if n = 1 then a else a * (b / a) ^ ((i : ℝ) / ((n : ℝ) - 1)))

/-- The weight vector built by the `"Linear Variation"` branch of
`Hydropathicity_value_calc` (source lines 89–91) for a segment of length
`len`: rising half `np.linspace(edge, 100, len // 2 + 1)` concatenated with
the falling half `np.linspace(100, edge, len // 2 + 1)[1:]`. -/
def weightsLin (e : ℚ) (len : ℕ) : List ℚ :=
  linspace e 100 (len / 2 + 1) ++ (linspace 100 e (len / 2 + 1)).drop 1

/-- The weight vector built by the exponential branch of
`Hydropathicity_value_calc` (source lines 101–103):
`np.geomspace(edge, 100, len // 2 + 1)` concatenated with
`np.geomspace(100, edge, len // 2 + 1)[1:]`. -/
noncomputable def weightsExp (e : ℚ) (len : ℕ) : List ℝ :=
  geomspace (e : ℝ) 100 (len / 2 + 1) ++ (geomspace 100 (e : ℝ) (len / 2 + 1)).drop 1

/-- The accumulation loop
`for index, AA in enumerate(segment): h += scale[AA] * weights[index]`.
The first symbol missing from the scale aborts the loop with that symbol as
the error (Python's `KeyError`).  Out-of-range weight indices never occur in
the source (the weight list is always at least as long as the segment), so
`List.getD _ _ 0` is exact on every reachable input. -/
def accum {K : Type} [LinearOrderedField K] (scale : Char → Option K) (w : List K) :
    List Char → ℕ → K → Except Char K
  | [], _, acc => .ok acc
  | c :: cs, i, acc =>
    match scale c with
    | none => .error c
    | some v => accum scale w cs (i + 1) (acc + v * w.getD i 0)

/-- Python's `round(x, 3)`: round to the nearest multiple of `1/1000`
(tie behaviour is irrelevant to every claim checked here). -/
def round3 {K : Type} [LinearOrderedField K] [FloorRing K] (x : K) : K :=
  ((round (x * 1000) : ℤ) : K) / 1000

/-- One windowed score: the accumulation loop followed by
`round(h / np.sum(weights), 3)` (source lines 93–97 and 105–109). -/
def scoreWindow {K : Type} [LinearOrderedField K] [FloorRing K]
    (scale : Char → Option K) (seg : List Char) (w : List K) : Except Char K :=
  (accum scale w seg 0 0).map (fun h => round3 (h / w.sum))

/-- `Hydropathicity_value_calc(segment, Edge_weight, Model="Linear Variation")`
(source lines 55–98): weights are generated from the segment's own length. -/
def Hydropathicity_value_calc_linear (seg : List Char) (e : ℚ) : Except Char ℚ :=
  scoreWindow Kyte_Doolittle_scale seg (weightsLin e seg.length)

/-- `Hydropathicity_value_calc(segment, Edge_weight, Model="Exponential Variation")`
(source lines 55–58 and 99–110). -/
noncomputable def Hydropathicity_value_calc_exp (seg : List Char) (e : ℚ) : Except Char ℝ :=
  scoreWindow Kyte_Doolittle_scaleR seg (weightsExp e seg.length)

/-- Python's slice `l[a : b]` for nonnegative bounds. -/
def pySlice (l : List Char) (a b : ℕ) : List Char :=
  (l.take b).drop a

/-- `np.arange(Window_size // 2, len(AA_seq) - Window_size // 2)`
(source lines 116–117).  Empty whenever the stop bound does not exceed the
start bound, exactly as `np.arange` is. -/
def AA_range (L W : ℕ) : List ℕ :=
  List.range' (W / 2) (L - W / 2 - W / 2)

/-- The `for index in AA_range: array.append(...)` loop: score every element
in order; the first raised error aborts the whole loop with no partial
result, as an uncaught Python exception does. -/
def mapExcept {α β ε : Type} (f : α → Except ε β) : List α → Except ε (List β)
  | [] => .ok []
  | x :: xs =>
    match f x with
    | .error err => .error err
    | .ok y => (mapExcept f xs).map (fun ys => y :: ys)

/-- `Hydropathicity_array_gen(AA_seq, Window_size, EDGE_weight, "Linear Variation")`
(source lines 113–124): one windowed score per valid center position `p`,
the segment being `AA_seq[p - W//2 : p + (W//2 + 1)]`, paired with the
position range itself. -/
def Hydropathicity_array_gen_linear (seq : List Char) (W : ℕ) (e : ℚ) :
    Except Char (List ℚ × List ℕ) :=
  (mapExcept
      (fun p => Hydropathicity_value_calc_linear (pySlice seq (p - W / 2) (p + (W / 2 + 1))) e)
      (AA_range seq.length W)).map
    (fun vals => (vals, AA_range seq.length W))

/-- `Hydropathicity_array_gen` with `model = "Exponential Variation"`. -/
noncomputable def Hydropathicity_array_gen_exp (seq : List Char) (W : ℕ) (e : ℚ) :
    Except Char (List ℝ × List ℕ) :=
  (mapExcept
      (fun p => Hydropathicity_value_calc_exp (pySlice seq (p - W / 2) (p + (W / 2 + 1))) e)
      (AA_range seq.length W)).map
    (fun vals => (vals, AA_range seq.length W))

/-- The separator `"    "` (four spaces) of `Preview_Sequence`. -/
def fourSpaces : List Char := [' ', ' ', ' ', ' ']

/-- `Preview_Sequence(Seq)` (source lines 44–52): for each chunk-start index
`0, 10, 20, …`, take the 10-symbol chunk, prepending `"\n"` when the index is
divisible by 60 (including index 0), then join with four-space gaps. -/
def Preview_Sequence (seq : List Char) : List Char :=
  List.intercalate fourSpaces
    (((List.range ((seq.length + 9) / 10)).map (fun k => k * 10)).map
      (fun i => if i % 60 ≠ 0 then pySlice seq i (i + 10)
                else '\n' :: pySlice seq i (i + 10)))

/-- The preview format exactly as the claim words it: a line break before each
group whose start index is a *positive* multiple of 60, and nowhere else. -/
def previewSpecClaim (seq : List Char) : List Char :=
  List.intercalate fourSpaces
    (((List.range ((seq.length + 9) / 10)).map (fun k => k * 10)).map
      (fun i => if i % 60 = 0 ∧ i ≠ 0 then '\n' :: pySlice seq i (i + 10)
                else pySlice seq i (i + 10)))

/-- The amended preview format: a line break before each group whose start
index is divisible by 60, the very first group included. -/
def previewSpecAmended (seq : List Char) : List Char :=
  List.intercalate fourSpaces
    (((List.range ((seq.length + 9) / 10)).map (fun k => k * 10)).map
      (fun i => if i % 60 = 0 then '\n' :: pySlice seq i (i + 10)
                else pySlice seq i (i + 10)))

/-! ## General lemmas about the embedded combinators -/

lemma exceptMap_eq_error {ε α β : Type} (f : α → β) (x : Except ε α) (c : ε) :
    x.map f = .error c ↔ x = .error c := by
  cases x <;> simp [Except.map]

lemma exceptMap_ok {ε α β : Type} (f : α → β) (a : α) :
    (Except.ok a : Except ε α).map f = .ok (f a) := rfl

lemma find?_cons_true {α : Type} (p : α → Bool) (a : α) (l : List α) (h : p a = true) :
    (a :: l).find? p = some a := by
  simp [List.find?, h]

lemma find?_cons_false {α : Type} (p : α → Bool) (a : α) (l : List α) (h : p a = false) :
    (a :: l).find? p = l.find? p := by
  simp [List.find?, h]

lemma accum_eq_ok {K : Type} [LinearOrderedField K] (scale : Char → Option K) (w : List K) :
    ∀ (seg : List Char), (∀ c ∈ seg, (scale c).isSome) → ∀ (i : ℕ) (acc : K),
      accum scale w seg i acc =
        .ok (acc + ∑ j ∈ Finset.range seg.length,
          ((scale (seg.getD j 'A')).getD 0) * w.getD (i + j) 0) := by
  intro seg
  induction seg with
  | nil => intro _ i acc; simp [accum]
  | cons c cs ih =>
    intro h i acc
    obtain ⟨v, hv⟩ := Option.isSome_iff_exists.mp (h c (List.mem_cons_self c cs))
    have hcs : ∀ x ∈ cs, (scale x).isSome := fun x hx => h x (List.mem_cons_of_mem _ hx)
    simp only [accum, hv]
    rw [ih hcs (i + 1) (acc + v * w.getD i 0)]
    congr 1
    rw [List.length_cons, Finset.sum_range_succ']
    have hstep : ∀ j ∈ Finset.range cs.length,
        (scale ((c :: cs).getD (j + 1) 'A')).getD 0 * w.getD (i + (j + 1)) 0 =
        (scale (cs.getD j 'A')).getD 0 * w.getD ((i + 1) + j) 0 := by
      intro j _
      have hj : i + (j + 1) = (i + 1) + j := by omega
      rw [List.getD_cons_succ, hj]
    rw [Finset.sum_congr rfl hstep]
    simp only [List.getD_cons_zero, hv, Option.getD_some, add_zero]
    ring

lemma scoreWindow_eq_ok {K : Type} [LinearOrderedField K] [FloorRing K]
    (scale : Char → Option K) (seg : List Char) (w : List K)
    (h : ∀ c ∈ seg, (scale c).isSome) :
    scoreWindow scale seg w =
      .ok (round3 ((∑ j ∈ Finset.range seg.length,
        ((scale (seg.getD j 'A')).getD 0) * w.getD j 0) / w.sum)) := by
  unfold scoreWindow
  rw [accum_eq_ok scale w seg h 0 0, exceptMap_ok]
  simp only [zero_add]

lemma accum_eq_error_iff {K : Type} [LinearOrderedField K]
    (scale : Char → Option K) (w : List K) :
    ∀ (seg : List Char) (i : ℕ) (acc : K) (c : Char),
      accum scale w seg i acc = .error c ↔
        seg.find? (fun ch => (scale ch).isNone) = some c := by
  intro seg
  induction seg with
  | nil => intro i acc c; simp [accum]
  | cons a cs ih =>
    intro i acc c
    cases ha : scale a with
    | none =>
      rw [find?_cons_true (fun ch => (scale ch).isNone) a cs (by simp [ha])]
      simp [accum, ha, eq_comm]
    | some v =>
      rw [find?_cons_false (fun ch => (scale ch).isNone) a cs (by simp [ha])]
      simp only [accum, ha]
      exact ih (i + 1) (acc + v * w.getD i 0) c

lemma mapExcept_ok {α β ε : Type} (f : α → Except ε β) :
    ∀ xs : List α, (∀ x ∈ xs, ∃ y, f x = .ok y) →
      ∃ ys : List β, mapExcept f xs = .ok ys ∧ ys.length = xs.length ∧
        ∀ (i : ℕ) (x : α) (y : β), xs[i]? = some x → ys[i]? = some y → f x = .ok y := by
  intro xs
  induction xs with
  | nil =>
    intro _
    exact ⟨[], rfl, rfl, by intro i x y hx; simp at hx⟩
  | cons a as ih =>
    intro h
    obtain ⟨y, hy⟩ := h a (List.mem_cons_self a as)
    obtain ⟨ys, h1, h2, h3⟩ := ih (fun x hx => h x (List.mem_cons_of_mem _ hx))
    refine ⟨y :: ys, ?_, by simp [h2], ?_⟩
    · simp only [mapExcept, hy, h1, Except.map]
    · intro i x y' hx hy'
      cases i with
      | zero =>
        simp only [List.getElem?_cons_zero, Option.some.injEq] at hx hy'
        rw [← hx, ← hy']
        exact hy
      | succ i =>
        simp only [List.getElem?_cons_succ] at hx hy'
        exact h3 i x y' hx hy'

lemma mapExcept_error_of {α β ε : Type} (f : α → Except ε β) :
    ∀ xs : List α, (∃ x ∈ xs, ∃ c, f x = .error c) →
      ∃ c x, x ∈ xs ∧ f x = .error c ∧ mapExcept f xs = .error c := by
  intro xs
  induction xs with
  | nil => rintro ⟨x, hx, -⟩; simp at hx
  | cons a as ih =>
    rintro ⟨x, hx, c, hc⟩
    cases ha : f a with
    | error ca =>
      exact ⟨ca, a, List.mem_cons_self a as, ha, by simp [mapExcept, ha]⟩
    | ok ya =>
      have hxas : x ∈ as := by
        rcases List.mem_cons.mp hx with rfl | h
        · rw [ha] at hc; exact absurd hc (by simp)
        · exact h
      obtain ⟨c', x', hmem, hfx', htail⟩ := ih ⟨x, hxas, c, hc⟩
      refine ⟨c', x', List.mem_cons_of_mem _ hmem, hfx', ?_⟩
      simp only [mapExcept, ha, htail, Except.map]

lemma mapExcept_error_congr {α β β' ε : Type} (f : α → Except ε β) (g : α → Except ε β') :
    ∀ xs : List α, (∀ x ∈ xs, ∀ c, f x = .error c ↔ g x = .error c) →
      ∀ c, mapExcept f xs = .error c ↔ mapExcept g xs = .error c := by
  intro xs
  induction xs with
  | nil => intro _ c; simp [mapExcept]
  | cons a as ih =>
    intro h c
    cases ha : f a with
    | error ca =>
      have hga : g a = .error ca := (h a (List.mem_cons_self a as) ca).mp ha
      simp [mapExcept, ha, hga]
    | ok ya =>
      cases hga : g a with
      | error cb =>
        have : f a = .error cb := (h a (List.mem_cons_self a as) cb).mpr hga
        rw [ha] at this
        exact absurd this (by simp)
      | ok yb =>
        simp only [mapExcept, ha, hga]
        rw [exceptMap_eq_error, exceptMap_eq_error]
        exact ih (fun x hx => h x (List.mem_cons_of_mem _ hx)) c

/-! ## The two scale views agree on their domain -/

lemma scaleR_isNone (c : Char) :
    (Kyte_Doolittle_scaleR c).isNone = (Kyte_Doolittle_scale c).isNone := by
  unfold Kyte_Doolittle_scaleR
  cases h : Kyte_Doolittle_scale c <;> simp

lemma scaleR_isSome (c : Char) :
    (Kyte_Doolittle_scaleR c).isSome = (Kyte_Doolittle_scale c).isSome := by
  unfold Kyte_Doolittle_scaleR
  cases h : Kyte_Doolittle_scale c <;> simp

lemma scaleR_pred_eq :
    (fun ch => (Kyte_Doolittle_scaleR ch).isNone) =
      (fun ch => (Kyte_Doolittle_scale ch).isNone) :=
  funext fun ch => scaleR_isNone ch

/-! ## Error behaviour of the two calculators -/

lemma calc_linear_eq_error_iff (seg : List Char) (e : ℚ) (c : Char) :
    Hydropathicity_value_calc_linear seg e = .error c ↔
      seg.find? (fun ch => (Kyte_Doolittle_scale ch).isNone) = some c := by
  unfold Hydropathicity_value_calc_linear scoreWindow
  rw [exceptMap_eq_error]
  exact accum_eq_error_iff _ _ seg 0 0 c

lemma calc_exp_eq_error_iff (seg : List Char) (e : ℚ) (c : Char) :
    Hydropathicity_value_calc_exp seg e = .error c ↔
      seg.find? (fun ch => (Kyte_Doolittle_scale ch).isNone) = some c := by
  unfold Hydropathicity_value_calc_exp scoreWindow
  rw [exceptMap_eq_error, accum_eq_error_iff, scaleR_pred_eq]

/-! ## Shape of the interpolated weight lists -/

lemma length_linspace (a b : ℚ) (n : ℕ) : (linspace a b n).length = n := by
  simp [linspace]

lemma length_geomspace (a b : ℝ) (n : ℕ) : (geomspace a b n).length = n := by
  simp [geomspace]

lemma linspace_getElem? (a b : ℚ) (n i : ℕ) (hn : 2 ≤ n) (hi : i < n) :
    (linspace a b n)[i]? = some (a + i * (b - a) / ((n : ℚ) - 1)) := by
  unfold linspace
  rw [List.getElem?_map, List.getElem?_range hi]
  simp only [Option.map_some']
  rw [if_neg (by omega)]

lemma geomspace_getElem? (a b : ℝ) (n i : ℕ) (hn : 2 ≤ n) (hi : i < n) :
    (geomspace a b n)[i]? = some (a * (b / a) ^ ((i : ℝ) / ((n : ℝ) - 1))) := by
  unfold geomspace
  rw [List.getElem?_map, List.getElem?_range hi]
  simp only [Option.map_some']
  rw [if_neg (by omega)]

lemma length_weightsLin (e : ℚ) (h : ℕ) : (weightsLin e (2 * h + 1)).length = 2 * h + 1 := by
  have hdiv : (2 * h + 1) / 2 = h := by omega
  simp [weightsLin, hdiv, length_linspace]
  omega

lemma length_weightsExp (e : ℚ) (h : ℕ) : (weightsExp e (2 * h + 1)).length = 2 * h + 1 := by
  have hdiv : (2 * h + 1) / 2 = h := by omega
  simp [weightsExp, hdiv, length_geomspace]
  omega

/-- Closed form of the linear weight vector of an odd window `2h+1`:
rising `e + i (100-e)/h` up to index `h`, then falling `100 + (i-h)(e-100)/h`. -/
lemma weightsLin_getElem? (e : ℚ) (h i : ℕ) (hh : 1 ≤ h) (hi : i < 2 * h + 1) :
    (weightsLin e (2 * h + 1))[i]? =
      if i ≤ h then some (e + i * (100 - e) / (h : ℚ))
      else some (100 + ((i : ℚ) - h) * (e - 100) / (h : ℚ)) := by
  have hdiv : (2 * h + 1) / 2 = h := by omega
  have hn : 2 ≤ h + 1 := by omega
  have hlen : (linspace e 100 (h + 1)).length = h + 1 := length_linspace e 100 (h + 1)
  unfold weightsLin
  rw [hdiv]
  by_cases hcase : i ≤ h
  · rw [List.getElem?_append_left (by rw [hlen]; omega),
      linspace_getElem? e 100 (h + 1) i hn (by omega), if_pos hcase]
    norm_num
  · rw [List.getElem?_append_right (by rw [hlen]; omega), if_neg hcase]
    rw [hlen, List.getElem?_drop]
    have hidx : 1 + (i - (h + 1)) = i - h := by omega
    rw [hidx, linspace_getElem? 100 e (h + 1) (i - h) hn (by omega)]
    have hcast : ((i - h : ℕ) : ℚ) = (i : ℚ) - h := by
      have : h ≤ i := by omega
      push_cast [this]
      ring
    rw [hcast]
    norm_num

/-- Closed form of the exponential weight vector of an odd window `2h+1`:
rising `e (100/e) ^ (i/h)` up to index `h`, then falling
`100 (e/100) ^ ((i-h)/h)`. -/
lemma weightsExp_getElem? (e : ℚ) (h i : ℕ) (hh : 1 ≤ h) (hi : i < 2 * h + 1) :
    (weightsExp e (2 * h + 1))[i]? =
      if i ≤ h then some ((e : ℝ) * ((100 : ℝ) / (e : ℝ)) ^ ((i : ℝ) / (h : ℝ)))
      else some ((100 : ℝ) * ((e : ℝ) / (100 : ℝ)) ^ (((i : ℝ) - h) / (h : ℝ))) := by
  have hdiv : (2 * h + 1) / 2 = h := by omega
  have hn : 2 ≤ h + 1 := by omega
  have hlen : (geomspace (e : ℝ) 100 (h + 1)).length = h + 1 :=
    length_geomspace (e : ℝ) 100 (h + 1)
  unfold weightsExp
  rw [hdiv]
  by_cases hcase : i ≤ h
  · rw [List.getElem?_append_left (by rw [hlen]; omega),
      geomspace_getElem? (e : ℝ) 100 (h + 1) i hn (by omega), if_pos hcase]
    norm_num
  · rw [List.getElem?_append_right (by rw [hlen]; omega), if_neg hcase]
    rw [hlen, List.getElem?_drop]
    have hidx : 1 + (i - (h + 1)) = i - h := by omega
    rw [hidx, geomspace_getElem? 100 (e : ℝ) (h + 1) (i - h) hn (by omega)]
    have hcast : ((i - h : ℕ) : ℝ) = (i : ℝ) - h := by
      have : h ≤ i := by omega
      push_cast [this]
      ring
    rw [hcast]
    norm_num

lemma sum_map_mul (c : ℚ) : ∀ w : List ℚ, (w.map (fun x => c * x)).sum = c * w.sum
  | [] => by simp
  | x :: xs => by simp [sum_map_mul c xs, mul_add]

lemma getD_map_mul (c : ℚ) (w : List ℚ) (j : ℕ) :
    (w.map (fun x => c * x)).getD j 0 = c * w.getD j 0 := by
  rw [List.getD_eq_getElem?_getD, List.getD_eq_getElem?_getD, List.getElem?_map]
  cases h : w[j]? <;> simp

/-! ## Claims -/

/-- **C2.** On a segment whose symbols are all in the 20-letter scale, the
Windowed Score Calculator returns
`sum(scale[segment[j]] * weights[j]) / sum(weights)` rounded to 3 decimal
places, in the Linear model (over `ℚ`) and in the Exponential model
(over `ℝ`) alike. -/
theorem C2_weighted_average_formula (seg : List Char) (e : ℚ)
    (hscale : ∀ c ∈ seg, (Kyte_Doolittle_scale c).isSome) :
    Hydropathicity_value_calc_linear seg e =
      .ok (round3 ((∑ j ∈ Finset.range seg.length,
        ((Kyte_Doolittle_scale (seg.getD j 'A')).getD 0) *
          (weightsLin e seg.length).getD j 0) / (weightsLin e seg.length).sum)) ∧
    Hydropathicity_value_calc_exp seg e =
      .ok (round3 ((∑ j ∈ Finset.range seg.length,
        ((Kyte_Doolittle_scaleR (seg.getD j 'A')).getD 0) *
          (weightsExp e seg.length).getD j 0) / (weightsExp e seg.length).sum)) := by
  constructor
  · unfold Hydropathicity_value_calc_linear
    exact scoreWindow_eq_ok _ _ _ hscale
  · unfold Hydropathicity_value_calc_exp
    refine scoreWindow_eq_ok _ _ _ ?_
    intro c hc
    rw [scaleR_isSome]
    exact hscale c hc

/-- Witness for C2 at the segment `"GAV"` with edge weight 100. -/
theorem C2_witness :
    (∀ c ∈ (['G', 'A', 'V'] : List Char), (Kyte_Doolittle_scale c).isSome) ∧
    (Hydropathicity_value_calc_linear ['G', 'A', 'V'] 100 =
      .ok (round3 ((∑ j ∈ Finset.range (['G', 'A', 'V'] : List Char).length,
        ((Kyte_Doolittle_scale ((['G', 'A', 'V'] : List Char).getD j 'A')).getD 0) *
          (weightsLin 100 (['G', 'A', 'V'] : List Char).length).getD j 0) /
        (weightsLin 100 (['G', 'A', 'V'] : List Char).length).sum)) ∧
    Hydropathicity_value_calc_exp ['G', 'A', 'V'] 100 =
      .ok (round3 ((∑ j ∈ Finset.range (['G', 'A', 'V'] : List Char).length,
        ((Kyte_Doolittle_scaleR ((['G', 'A', 'V'] : List Char).getD j 'A')).getD 0) *
          (weightsExp 100 (['G', 'A', 'V'] : List Char).length).getD j 0) /
        (weightsExp 100 (['G', 'A', 'V'] : List Char).length).sum))) :=
  ⟨by decide, C2_weighted_average_formula ['G', 'A', 'V'] 100 (by decide)⟩

/-- **C5.** A sequence shorter than the window size yields the empty profile
(empty value list, empty position list) and no error, in either model. -/
theorem C5_short_sequence_empty_profile (seq : List Char) (W : ℕ) (e : ℚ)
    (_hscale : ∀ c ∈ seq, (Kyte_Doolittle_scale c).isSome)
    (hshort : seq.length < W) :
    Hydropathicity_array_gen_linear seq W e = .ok ([], []) ∧
    Hydropathicity_array_gen_exp seq W e = .ok ([], []) := by
  have hcnt : seq.length - W / 2 - W / 2 = 0 := by omega
  constructor <;>
    simp [Hydropathicity_array_gen_linear, Hydropathicity_array_gen_exp, AA_range, hcnt,
      mapExcept, Except.map]

/-- Witness for C5: the two-residue sequence `"GA"` with window size 3. -/
theorem C5_witness :
    (∀ c ∈ (['G', 'A'] : List Char), (Kyte_Doolittle_scale c).isSome) ∧
    (['G', 'A'] : List Char).length < 3 ∧
    (Hydropathicity_array_gen_linear ['G', 'A'] 3 100 = .ok ([], []) ∧
      Hydropathicity_array_gen_exp ['G', 'A'] 3 100 = .ok ([], [])) :=
  ⟨by decide, by decide, C5_short_sequence_empty_profile ['G', 'A'] 3 100 (by decide) (by decide)⟩

/-- **C7.** The normalized weighted average computed by the Windowed Score
Calculator is invariant under multiplying every weight by the same positive
constant — exactly, in exact arithmetic. -/
theorem C7_scale_invariance (seg : List Char) (w : List ℚ) (c : ℚ)
    (hscale : ∀ ch ∈ seg, (Kyte_Doolittle_scale ch).isSome)
    (_hlen : w.length = seg.length) (_hpos : ∀ x ∈ w, 0 < x) (hc : 0 < c) :
    scoreWindow Kyte_Doolittle_scale seg (w.map (fun x => c * x)) =
      scoreWindow Kyte_Doolittle_scale seg w := by
  rw [scoreWindow_eq_ok _ _ _ hscale, scoreWindow_eq_ok _ _ _ hscale]
  have hnum : (∑ j ∈ Finset.range seg.length,
      ((Kyte_Doolittle_scale (seg.getD j 'A')).getD 0) *
        (w.map (fun x => c * x)).getD j 0) =
      c * ∑ j ∈ Finset.range seg.length,
        ((Kyte_Doolittle_scale (seg.getD j 'A')).getD 0) * w.getD j 0 := by
    rw [Finset.mul_sum]
    refine Finset.sum_congr rfl ?_
    intro j _
    rw [getD_map_mul]
    ring
  rw [hnum, sum_map_mul, mul_div_mul_left _ _ (ne_of_gt hc)]

/-- Witness for C7: segment `"GA"`, weights `[1, 2]`, constant 2. -/
theorem C7_witness :
    (∀ ch ∈ (['G', 'A'] : List Char), (Kyte_Doolittle_scale ch).isSome) ∧
    ([(1 : ℚ), 2].length = (['G', 'A'] : List Char).length) ∧
    (∀ x ∈ [(1 : ℚ), 2], 0 < x) ∧ (0 : ℚ) < 2 ∧
    scoreWindow Kyte_Doolittle_scale ['G', 'A'] ([(1 : ℚ), 2].map (fun x => 2 * x)) =
      scoreWindow Kyte_Doolittle_scale ['G', 'A'] [(1 : ℚ), 2] :=
  ⟨by decide, by decide, by decide, by decide,
    C7_scale_invariance ['G', 'A'] [1, 2] 2 (by decide) (by decide) (by decide) (by decide)⟩

/-- **C9, counterexample.** The preview of the one-residue sequence `"A"`
begins with a line break — the code inserts a break before the group starting
at index 0 as well, because `0 % 60 == 0`; the claim's format (break only
before *positive* multiples of 60) predicts `"A"` with no break. -/
theorem C9_counterexample_leading_break :
    Preview_Sequence ['A'] = ['\n', 'A'] ∧
    previewSpecClaim ['A'] = ['A'] ∧
    (['\n', 'A'] : List Char) ≠ ['A'] := by
  refine ⟨?_, ?_, by decide⟩ <;> decide

/-- **C9, amended.** The preview is the sequence chunked into 10-symbol
groups joined by 4-space gaps, with a line break before every group whose
start index is divisible by 60 — the first group included. -/
theorem C9_preview_format_amended (seq : List Char) :
    Preview_Sequence seq = previewSpecAmended seq := by
  unfold Preview_Sequence previewSpecAmended
  congr 1
  refine List.map_congr_left ?_
  intro i _
  by_cases h : i % 60 = 0
  · simp [h]
  · simp [h]

/-- **C10.** An even window size `W` produces exactly the same profile
(positions and values) as the next odd size `W + 1`, in either model: the
whole computation depends on the window size only through `W // 2`. -/
theorem C10_even_window_equals_next_odd (seq : List Char) (W : ℕ) (e : ℚ)
    (heven : W % 2 = 0) (_hW : 2 ≤ W) :
    Hydropathicity_array_gen_linear seq W e = Hydropathicity_array_gen_linear seq (W + 1) e ∧
    Hydropathicity_array_gen_exp seq W e = Hydropathicity_array_gen_exp seq (W + 1) e := by
  have hdiv : (W + 1) / 2 = W / 2 := by omega
  constructor <;>
    simp only [Hydropathicity_array_gen_linear, Hydropathicity_array_gen_exp, AA_range, hdiv]

/-- Witness for C10: the sequence `"GAVLI"` with window sizes 4 and 5. -/
theorem C10_witness :
    (4 : ℕ) % 2 = 0 ∧ (2 : ℕ) ≤ 4 ∧
    (Hydropathicity_array_gen_linear ['G', 'A', 'V', 'L', 'I'] 4 100 =
        Hydropathicity_array_gen_linear ['G', 'A', 'V', 'L', 'I'] 5 100 ∧
      Hydropathicity_array_gen_exp ['G', 'A', 'V', 'L', 'I'] 4 100 =
        Hydropathicity_array_gen_exp ['G', 'A', 'V', 'L', 'I'] 5 100) :=
  ⟨by decide, by decide,
    C10_even_window_equals_next_odd ['G', 'A', 'V', 'L', 'I'] 4 100 (by decide) (by decide)⟩

/-- **C6.** Concrete scenario: sequence `"GAVLI"`, window size 3, edge
weight 100, Linear model.  The weight vector degenerates to `[100, 100, 100]`,
the profile positions are `[1, 2, 3]`, and the value at position 1 is the
plain average of `scale['G']`, `scale['A']`, `scale['V']`, i.e.
`(-0.4 + 1.8 + 4.2) / 3 = 1.867` after rounding to 3 decimals. -/
theorem C6_concrete_gavli :
    weightsLin 100 3 = [100, 100, 100] ∧
    Hydropathicity_array_gen_linear ['G', 'A', 'V', 'L', 'I'] 3 100 =
      .ok ([1867 / 1000, 3267 / 1000, 4167 / 1000], [1, 2, 3]) ∧
    (1867 / 1000 : ℚ) = round3 (((-0.4 : ℚ) + 1.8 + 4.2) / 3) := by
  have hw : weightsLin 100 3 = [100, 100, 100] := by
    norm_num [weightsLin, linspace, List.range_succ]
  have hf1 :
      (fun p => Hydropathicity_value_calc_linear
        (pySlice ['G', 'A', 'V', 'L', 'I'] (p - 3 / 2) (p + (3 / 2 + 1))) 100) 1 =
        .ok (1867 / 1000) := by
    norm_num [pySlice, Hydropathicity_value_calc_linear, scoreWindow, accum,
      Kyte_Doolittle_scale, weightsLin, linspace, List.range_succ, round3, round_eq,
      Except.map]
  have hf2 :
      (fun p => Hydropathicity_value_calc_linear
        (pySlice ['G', 'A', 'V', 'L', 'I'] (p - 3 / 2) (p + (3 / 2 + 1))) 100) 2 =
        .ok (3267 / 1000) := by
    norm_num [pySlice, Hydropathicity_value_calc_linear, scoreWindow, accum,
      Kyte_Doolittle_scale, weightsLin, linspace, List.range_succ, round3, round_eq,
      Except.map]
  have hf3 :
      (fun p => Hydropathicity_value_calc_linear
        (pySlice ['G', 'A', 'V', 'L', 'I'] (p - 3 / 2) (p + (3 / 2 + 1))) 100) 3 =
        .ok (4167 / 1000) := by
    norm_num [pySlice, Hydropathicity_value_calc_linear, scoreWindow, accum,
      Kyte_Doolittle_scale, weightsLin, linspace, List.range_succ, round3, round_eq,
      Except.map]
  have hr : AA_range (['G', 'A', 'V', 'L', 'I'] : List Char).length 3 = [1, 2, 3] := by
    decide
  refine ⟨hw, ?_, by norm_num [round3, round_eq]⟩
  unfold Hydropathicity_array_gen_linear
  rw [hr]
  have hm : mapExcept
      (fun p => Hydropathicity_value_calc_linear
        (pySlice ['G', 'A', 'V', 'L', 'I'] (p - 3 / 2) (p + (3 / 2 + 1))) 100)
      [1, 2, 3] = .ok [1867 / 1000, 3267 / 1000, 4167 / 1000] := by
    simp only [mapExcept, hf1, hf2, hf3, Except.map]
  rw [hm]
  rfl

/-- **C1.** On a sequence whose symbols are all in the scale,
`Hydropathicity_array_gen` (either model) succeeds, its positions are exactly
the half-open integer range `[W//2, L - W//2)` in increasing order — hence of
length `L - 2*(W//2)` when that is positive, and empty otherwise — and the
`i`-th value is the windowed score of the segment centred at the `i`-th
position. -/
theorem C1_profile_positions_and_values (seq : List Char) (W : ℕ) (e : ℚ)
    (hscale : ∀ c ∈ seq, (Kyte_Doolittle_scale c).isSome) :
    ∃ (valsL : List ℚ) (valsR : List ℝ) (pos : List ℕ),
      Hydropathicity_array_gen_linear seq W e = .ok (valsL, pos) ∧
      Hydropathicity_array_gen_exp seq W e = .ok (valsR, pos) ∧
      pos = List.range' (W / 2) (seq.length - 2 * (W / 2)) ∧
      pos.Sorted (· < ·) ∧
      (2 * (W / 2) < seq.length → pos.length = seq.length - 2 * (W / 2)) ∧
      (seq.length ≤ 2 * (W / 2) → pos = []) ∧
      valsL.length = pos.length ∧ valsR.length = pos.length ∧
      (∀ (i p : ℕ), pos[i]? = some p →
        (∃ v : ℚ, valsL[i]? = some v ∧
          Hydropathicity_value_calc_linear (pySlice seq (p - W / 2) (p + (W / 2 + 1))) e =
            .ok v) ∧
        (∃ v : ℝ, valsR[i]? = some v ∧
          Hydropathicity_value_calc_exp (pySlice seq (p - W / 2) (p + (W / 2 + 1))) e =
            .ok v)) := by
  have hsub : ∀ (p : ℕ), ∀ c ∈ pySlice seq (p - W / 2) (p + (W / 2 + 1)), c ∈ seq := by
    intro p c hc
    unfold pySlice at hc
    exact List.mem_of_mem_take (List.mem_of_mem_drop hc)
  have hfL : ∀ p ∈ AA_range seq.length W, ∃ v : ℚ,
      Hydropathicity_value_calc_linear (pySlice seq (p - W / 2) (p + (W / 2 + 1))) e =
        .ok v := by
    intro p _
    unfold Hydropathicity_value_calc_linear
    exact ⟨_, scoreWindow_eq_ok _ _ _ (fun c hc => hscale c (hsub p c hc))⟩
  have hfR : ∀ p ∈ AA_range seq.length W, ∃ v : ℝ,
      Hydropathicity_value_calc_exp (pySlice seq (p - W / 2) (p + (W / 2 + 1))) e =
        .ok v := by
    intro p _
    unfold Hydropathicity_value_calc_exp
    refine ⟨_, scoreWindow_eq_ok _ _ _ ?_⟩
    intro c hc
    rw [scaleR_isSome]
    exact hscale c (hsub p c hc)
  obtain ⟨valsL, hL1, hL2, hL3⟩ := mapExcept_ok _ (AA_range seq.length W) hfL
  obtain ⟨valsR, hR1, hR2, hR3⟩ := mapExcept_ok _ (AA_range seq.length W) hfR
  refine ⟨valsL, valsR, AA_range seq.length W, ?_, ?_, ?_, ?_, ?_, ?_, hL2, hR2, ?_⟩
  · unfold Hydropathicity_array_gen_linear
    rw [hL1]
    rfl
  · unfold Hydropathicity_array_gen_exp
    rw [hR1]
    rfl
  · unfold AA_range
    congr 1
    omega
  · unfold AA_range
    rw [List.range'_eq_map_range]
    exact List.pairwise_map.mpr
      ((List.sorted_lt_range _).imp (fun hab => Nat.add_lt_add_left hab _))
  · intro hlt
    unfold AA_range
    rw [List.length_range']
    omega
  · intro hle
    unfold AA_range
    have hz : seq.length - W / 2 - W / 2 = 0 := by omega
    rw [hz]
    rfl
  · intro i p hp
    have hi : i < (AA_range seq.length W).length := by
      by_contra hge
      push_neg at hge
      rw [List.getElem?_eq_none hge] at hp
      cases hp
    constructor
    · have hiL : i < valsL.length := by rw [hL2]; exact hi
      exact ⟨valsL[i], List.getElem?_eq_getElem hiL,
        hL3 i p valsL[i] hp (List.getElem?_eq_getElem hiL)⟩
    · have hiR : i < valsR.length := by rw [hR2]; exact hi
      exact ⟨valsR[i], List.getElem?_eq_getElem hiR,
        hR3 i p valsR[i] hp (List.getElem?_eq_getElem hiR)⟩

/-- Witness for C1: the sequence `"GAVLI"` with window size 3. -/
theorem C1_witness :
    (∀ c ∈ (['G', 'A', 'V', 'L', 'I'] : List Char), (Kyte_Doolittle_scale c).isSome) ∧
    (∃ (valsL : List ℚ) (valsR : List ℝ) (pos : List ℕ),
      Hydropathicity_array_gen_linear ['G', 'A', 'V', 'L', 'I'] 3 100 = .ok (valsL, pos) ∧
      Hydropathicity_array_gen_exp ['G', 'A', 'V', 'L', 'I'] 3 100 = .ok (valsR, pos) ∧
      pos = List.range' (3 / 2) ((['G', 'A', 'V', 'L', 'I'] : List Char).length - 2 * (3 / 2)) ∧
      pos.Sorted (· < ·) ∧
      (2 * (3 / 2) < (['G', 'A', 'V', 'L', 'I'] : List Char).length →
        pos.length = (['G', 'A', 'V', 'L', 'I'] : List Char).length - 2 * (3 / 2)) ∧
      ((['G', 'A', 'V', 'L', 'I'] : List Char).length ≤ 2 * (3 / 2) → pos = []) ∧
      valsL.length = pos.length ∧ valsR.length = pos.length ∧
      (∀ (i p : ℕ), pos[i]? = some p →
        (∃ v : ℚ, valsL[i]? = some v ∧
          Hydropathicity_value_calc_linear
            (pySlice ['G', 'A', 'V', 'L', 'I'] (p - 3 / 2) (p + (3 / 2 + 1))) 100 = .ok v) ∧
        (∃ v : ℝ, valsR[i]? = some v ∧
          Hydropathicity_value_calc_exp
            (pySlice ['G', 'A', 'V', 'L', 'I'] (p - 3 / 2) (p + (3 / 2 + 1))) 100 = .ok v))) :=
  ⟨by decide, C1_profile_positions_and_values ['G', 'A', 'V', 'L', 'I'] 3 100 (by decide)⟩

/-- **C4, counterexample.** The error raised on an unknown residue carries
the offending symbol only — Python's `KeyError` holds the missing key, not
the loop index — so two segments containing `'X'` at *different* positions
fail with *identical* errors: the error cannot identify the position, contrary
to the claim. -/
theorem C4_counterexample_error_lacks_position :
    Hydropathicity_value_calc_linear ['X', 'G', 'G'] 100 = .error 'X' ∧
    Hydropathicity_value_calc_linear ['G', 'G', 'X'] 100 = .error 'X' :=
  ⟨rfl, rfl⟩

/-- **C4, amended.** If a scored segment contains a symbol outside the scale,
the calculator fails with an error identifying the offending symbol (the
first unknown symbol in segment order, in either model) — no default score is
substituted — and if any scored window of a profile computation fails, the
whole computation fails with that same error, in both models, with no partial
profile. -/
theorem C4_unknown_residue_amended (seg seq : List Char) (W : ℕ) (e : ℚ) :
    (∀ c : Char, seg.find? (fun ch => (Kyte_Doolittle_scale ch).isNone) = some c →
      Hydropathicity_value_calc_linear seg e = .error c ∧
      Hydropathicity_value_calc_exp seg e = .error c ∧
      Kyte_Doolittle_scale c = none) ∧
    ((∃ p ∈ AA_range seq.length W, ∃ c : Char,
        Hydropathicity_value_calc_linear (pySlice seq (p - W / 2) (p + (W / 2 + 1))) e =
          .error c) →
      ∃ (c : Char) (p : ℕ), p ∈ AA_range seq.length W ∧
        Hydropathicity_value_calc_linear (pySlice seq (p - W / 2) (p + (W / 2 + 1))) e =
          .error c ∧
        Kyte_Doolittle_scale c = none ∧
        Hydropathicity_array_gen_linear seq W e = .error c ∧
        Hydropathicity_array_gen_exp seq W e = .error c) := by
  constructor
  · intro c hfind
    refine ⟨(calc_linear_eq_error_iff seg e c).mpr hfind,
      (calc_exp_eq_error_iff seg e c).mpr hfind, ?_⟩
    have hpred := List.find?_some hfind
    simpa using hpred
  · intro hex
    obtain ⟨c, p, hmem, hcalc, hmap⟩ := mapExcept_error_of _ (AA_range seq.length W) hex
    have hnone : Kyte_Doolittle_scale c = none := by
      have hfind := (calc_linear_eq_error_iff _ e c).mp hcalc
      have hpred := List.find?_some hfind
      simpa using hpred
    have hcongr : ∀ x ∈ AA_range seq.length W, ∀ c' : Char,
        Hydropathicity_value_calc_linear (pySlice seq (x - W / 2) (x + (W / 2 + 1))) e =
            .error c' ↔
          Hydropathicity_value_calc_exp (pySlice seq (x - W / 2) (x + (W / 2 + 1))) e =
            .error c' := by
      intro x _ c'
      rw [calc_linear_eq_error_iff, calc_exp_eq_error_iff]
    have hmapExp := (mapExcept_error_congr _ _ (AA_range seq.length W) hcongr c).mp hmap
    refine ⟨c, p, hmem, hcalc, hnone, ?_, ?_⟩
    · unfold Hydropathicity_array_gen_linear
      rw [exceptMap_eq_error]
      exact hmap
    · unfold Hydropathicity_array_gen_exp
      rw [exceptMap_eq_error]
      exact hmapExp

/-- Witness for C4: segment `"GX"`, and the sequence `"GAXVL"` whose first
window `"GAX"` contains the unknown residue `'X'`. -/
theorem C4_witness :
    ((['G', 'X'] : List Char).find? (fun ch => (Kyte_Doolittle_scale ch).isNone) = some 'X' ∧
      Hydropathicity_value_calc_linear ['G', 'X'] 100 = .error 'X' ∧
      Hydropathicity_value_calc_exp ['G', 'X'] 100 = .error 'X' ∧
      Kyte_Doolittle_scale 'X' = none) ∧
    (∃ (c : Char) (p : ℕ), p ∈ AA_range (['G', 'A', 'X', 'V', 'L'] : List Char).length 3 ∧
      Hydropathicity_value_calc_linear
        (pySlice ['G', 'A', 'X', 'V', 'L'] (p - 3 / 2) (p + (3 / 2 + 1))) 100 = .error c ∧
      Kyte_Doolittle_scale c = none ∧
      Hydropathicity_array_gen_linear ['G', 'A', 'X', 'V', 'L'] 3 100 = .error c ∧
      Hydropathicity_array_gen_exp ['G', 'A', 'X', 'V', 'L'] 3 100 = .error c) :=
  ⟨⟨by decide,
      (C4_unknown_residue_amended ['G', 'X'] ['G', 'A', 'X', 'V', 'L'] 3 100).1 'X' (by decide)⟩,
    (C4_unknown_residue_amended ['G', 'X'] ['G', 'A', 'X', 'V', 'L'] 3 100).2
      ⟨1, by decide, 'X', rfl⟩⟩

/-! ## Shape of the weight vectors of an odd window (for C3) -/

lemma weightsLin_symm (e : ℚ) (h i : ℕ) (hh : 1 ≤ h) (hi : i < 2 * h + 1) :
    (weightsLin e (2 * h + 1))[i]? = (weightsLin e (2 * h + 1))[2 * h - i]? := by
  have hQ : (h : ℚ) ≠ 0 := Nat.cast_ne_zero.mpr (by omega)
  rw [weightsLin_getElem? e h i hh hi, weightsLin_getElem? e h (2 * h - i) hh (by omega)]
  have hcast : ((2 * h - i : ℕ) : ℚ) = 2 * (h : ℚ) - (i : ℚ) := by
    rw [Nat.cast_sub (by omega : i ≤ 2 * h)]
    push_cast
    ring
  rcases lt_trichotomy i h with hlt | heq | hgt
  · rw [if_pos (le_of_lt hlt), if_neg (by omega), hcast]
    congr 1
    field_simp
    ring
  · rw [heq, show 2 * h - h = h from by omega]
  · rw [if_neg (by omega), if_pos (by omega), hcast]
    congr 1
    field_simp
    ring

lemma weightsLin_middle (e : ℚ) (h : ℕ) (hh : 1 ≤ h) :
    (weightsLin e (2 * h + 1))[h]? = some 100 := by
  have hQ : (h : ℚ) ≠ 0 := Nat.cast_ne_zero.mpr (by omega)
  rw [weightsLin_getElem? e h h hh (by omega), if_pos (le_refl h)]
  congr 1
  field_simp

lemma weightsLin_le (e : ℚ) (h : ℕ) (hh : 1 ≤ h) (he : e ≤ 100) :
    ∀ x ∈ weightsLin e (2 * h + 1), x ≤ 100 := by
  have hdiv : (2 * h + 1) / 2 = h := by omega
  have hQ : (0 : ℚ) < (h : ℚ) := by exact_mod_cast (by omega : 0 < h)
  intro x hx
  unfold weightsLin at hx
  rw [hdiv] at hx
  have hcast : ((h + 1 : ℕ) : ℚ) - 1 = (h : ℚ) := by push_cast; ring
  rcases List.mem_append.mp hx with hmem | hmem
  · unfold linspace at hmem
    obtain ⟨i, hirange, hieq⟩ := List.mem_map.mp hmem
    have hi : i < h + 1 := List.mem_range.mp hirange
    rw [if_neg (by omega), hcast] at hieq
    have hih : (i : ℚ) ≤ (h : ℚ) := by exact_mod_cast (by omega : i ≤ h)
    have key : (i : ℚ) * (100 - e) ≤ (h : ℚ) * (100 - e) :=
      mul_le_mul_of_nonneg_right hih (by linarith)
    have hdivle : (i : ℚ) * (100 - e) / (h : ℚ) ≤ (h : ℚ) * (100 - e) / (h : ℚ) :=
      (div_le_div_iff_of_pos_right hQ).mpr key
    have hcancel : (h : ℚ) * (100 - e) / (h : ℚ) = 100 - e := by field_simp
    rw [hcancel] at hdivle
    rw [← hieq]
    linarith
  · have hmem' := List.mem_of_mem_drop hmem
    unfold linspace at hmem'
    obtain ⟨i, hirange, hieq⟩ := List.mem_map.mp hmem'
    rw [if_neg (by omega), hcast] at hieq
    have hnum : (i : ℚ) * (e - 100) ≤ 0 :=
      mul_nonpos_of_nonneg_of_nonpos (by positivity) (by linarith)
    have hdivle : (i : ℚ) * (e - 100) / (h : ℚ) ≤ 0 :=
      div_nonpos_iff.mpr (Or.inr ⟨hnum, le_of_lt hQ⟩)
    rw [← hieq]
    linarith

lemma exp_side_formula (x : ℝ) (hx : 0 < x) (h : ℕ) (hh : 1 ≤ h) (t : ℝ) :
    (100 : ℝ) * (x / 100) ^ (((h : ℝ) - t) / (h : ℝ)) =
      x * ((100 : ℝ) / x) ^ (t / (h : ℝ)) := by
  have hR : (0 : ℝ) < (h : ℝ) := by exact_mod_cast (by omega : 0 < h)
  have hr : (0 : ℝ) < 100 / x := by positivity
  have hinv : (x / 100 : ℝ) = (100 / x)⁻¹ := (inv_div 100 x).symm
  rw [hinv, Real.inv_rpow hr.le, ← Real.rpow_neg hr.le]
  have hexp : -(((h : ℝ) - t) / (h : ℝ)) = t / (h : ℝ) - 1 := by
    field_simp
  rw [hexp, Real.rpow_sub hr, Real.rpow_one]
  field_simp
  ring

lemma weightsExp_symm (e : ℚ) (h i : ℕ) (hh : 1 ≤ h) (he : 0 < e) (hi : i < 2 * h + 1) :
    (weightsExp e (2 * h + 1))[i]? = (weightsExp e (2 * h + 1))[2 * h - i]? := by
  have hx : (0 : ℝ) < (e : ℝ) := by exact_mod_cast he
  rw [weightsExp_getElem? e h i hh hi, weightsExp_getElem? e h (2 * h - i) hh (by omega)]
  have hcast : ((2 * h - i : ℕ) : ℝ) = 2 * (h : ℝ) - (i : ℝ) := by
    rw [Nat.cast_sub (by omega : i ≤ 2 * h)]
    push_cast
    ring
  rcases lt_trichotomy i h with hlt | heq | hgt
  · rw [if_pos (le_of_lt hlt), if_neg (by omega), hcast]
    congr 1
    rw [show 2 * (h : ℝ) - (i : ℝ) - (h : ℝ) = (h : ℝ) - (i : ℝ) from by ring]
    exact (exp_side_formula (e : ℝ) hx h hh (i : ℝ)).symm
  · rw [heq, show 2 * h - h = h from by omega]
  · rw [if_neg (by omega), if_pos (by omega), hcast]
    congr 1
    rw [show (i : ℝ) - (h : ℝ) = (h : ℝ) - (2 * (h : ℝ) - (i : ℝ)) from by ring]
    exact exp_side_formula (e : ℝ) hx h hh (2 * (h : ℝ) - (i : ℝ))

lemma weightsExp_middle (e : ℚ) (h : ℕ) (hh : 1 ≤ h) (he : 0 < e) :
    (weightsExp e (2 * h + 1))[h]? = some 100 := by
  have hR : ((h : ℝ)) ≠ 0 := Nat.cast_ne_zero.mpr (by omega)
  have hx : (0 : ℝ) < (e : ℝ) := by exact_mod_cast he
  rw [weightsExp_getElem? e h h hh (by omega), if_pos (le_refl h), div_self hR,
    Real.rpow_one]
  congr 1
  field_simp

lemma weightsExp_le (e : ℚ) (h : ℕ) (hh : 1 ≤ h) (he : 0 < e) (he100 : e ≤ 100) :
    ∀ x ∈ weightsExp e (2 * h + 1), x ≤ 100 := by
  have hdiv : (2 * h + 1) / 2 = h := by omega
  have hR : (0 : ℝ) < (h : ℝ) := by exact_mod_cast (by omega : 0 < h)
  have hx : (0 : ℝ) < (e : ℝ) := by exact_mod_cast he
  have hx100 : (e : ℝ) ≤ 100 := by exact_mod_cast he100
  intro x hxmem
  unfold weightsExp at hxmem
  rw [hdiv] at hxmem
  have hcast : ((h + 1 : ℕ) : ℝ) - 1 = (h : ℝ) := by push_cast; ring
  rcases List.mem_append.mp hxmem with hmem | hmem
  · unfold geomspace at hmem
    obtain ⟨i, hirange, hieq⟩ := List.mem_map.mp hmem
    have hi : i < h + 1 := List.mem_range.mp hirange
    rw [if_neg (by omega), hcast] at hieq
    have hb : (1 : ℝ) ≤ 100 / (e : ℝ) := (one_le_div hx).mpr (by linarith)
    have ht : (i : ℝ) / (h : ℝ) ≤ 1 := by
      rw [div_le_one hR]
      exact_mod_cast (by omega : i ≤ h)
    have hm : (100 / (e : ℝ)) ^ ((i : ℝ) / (h : ℝ)) ≤ (100 / (e : ℝ)) ^ (1 : ℝ) :=
      Real.rpow_le_rpow_of_exponent_le hb ht
    rw [Real.rpow_one] at hm
    have hfin : (e : ℝ) * (100 / (e : ℝ)) ^ ((i : ℝ) / (h : ℝ)) ≤ (e : ℝ) * (100 / (e : ℝ)) :=
      mul_le_mul_of_nonneg_left hm (le_of_lt hx)
    have hcancel : (e : ℝ) * (100 / (e : ℝ)) = 100 := by field_simp
    rw [← hieq]
    linarith
  · have hmem' := List.mem_of_mem_drop hmem
    unfold geomspace at hmem'
    obtain ⟨i, hirange, hieq⟩ := List.mem_map.mp hmem'
    rw [if_neg (by omega), hcast] at hieq
    have h0 : (0 : ℝ) ≤ (e : ℝ) / 100 := by positivity
    have h1 : (e : ℝ) / 100 ≤ 1 := by
      rw [div_le_one (by norm_num : (0 : ℝ) < 100)]
      exact hx100
    have ht : (0 : ℝ) ≤ (i : ℝ) / (h : ℝ) := by positivity
    have hm := Real.rpow_le_one h0 h1 ht
    have hfin : (100 : ℝ) * ((e : ℝ) / 100) ^ ((i : ℝ) / (h : ℝ)) ≤ 100 * 1 :=
      mul_le_mul_of_nonneg_left hm (by norm_num)
    rw [← hieq]
    linarith

/-- **C3, counterexample.** For edge weight 200 (which is `> 0`) and the
Linear model with window size 3 (odd, `≥ 3`), the weight vector is
`[200, 100, 200]`: its middle entry is 100, yet 200 is also an entry, so the
weight vector does *not* attain its maximum at the middle index — the claim
fails for edge weights above the center weight 100. -/
theorem C3_counterexample_edge_weight_200 :
    (3 : ℕ) % 2 = 1 ∧ (3 : ℕ) ≤ 3 ∧ (0 : ℚ) < 200 ∧
    weightsLin 200 3 = [200, 100, 200] ∧
    (weightsLin 200 3)[1]? = some 100 ∧
    (200 : ℚ) ∈ weightsLin 200 3 ∧ ¬ (200 : ℚ) ≤ 100 := by
  have hw : weightsLin 200 3 = [200, 100, 200] := by
    norm_num [weightsLin, linspace, List.range_succ]
  refine ⟨by decide, by decide, by decide, hw, ?_, ?_, by norm_num⟩
  · rw [hw]
    rfl
  · rw [hw]
    simp

/-- **C3, amended.** For every odd window size `W ≥ 3` and every edge weight
`e` with `0 < e ≤ 100` (the configuration surface bounds the edge weight by
the center weight 100), in both the Linear and the Exponential model, the
weight vector has length exactly `W`, is symmetric, and attains its maximum —
the center weight 100 — at the middle index `W // 2`.  (For `e > 100` the
middle entry is still 100 but is the minimum, not the maximum.) -/
theorem C3_weight_vector_shape_amended (W : ℕ) (e : ℚ)
    (hodd : W % 2 = 1) (hW : 3 ≤ W) (he : 0 < e) (he100 : e ≤ 100) :
    (weightsLin e W).length = W ∧
    (∀ i : ℕ, i < W → (weightsLin e W)[i]? = (weightsLin e W)[W - 1 - i]?) ∧
    (weightsLin e W)[W / 2]? = some 100 ∧
    (∀ x ∈ weightsLin e W, x ≤ 100) ∧
    (weightsExp e W).length = W ∧
    (∀ i : ℕ, i < W → (weightsExp e W)[i]? = (weightsExp e W)[W - 1 - i]?) ∧
    (weightsExp e W)[W / 2]? = some 100 ∧
    (∀ x ∈ weightsExp e W, x ≤ (100 : ℝ)) := by
  obtain ⟨h, hh, rfl⟩ : ∃ h : ℕ, 1 ≤ h ∧ W = 2 * h + 1 := ⟨W / 2, by omega, by omega⟩
  have hmid : (2 * h + 1) / 2 = h := by omega
  have hsub : ∀ i : ℕ, 2 * h + 1 - 1 - i = 2 * h - i := fun i => by omega
  refine ⟨length_weightsLin e h, ?_, ?_, weightsLin_le e h hh he100,
    length_weightsExp e h, ?_, ?_, weightsExp_le e h hh he he100⟩
  · intro i hi
    rw [hsub i]
    exact weightsLin_symm e h i hh hi
  · rw [hmid]
    exact weightsLin_middle e h hh
  · intro i hi
    rw [hsub i]
    exact weightsExp_symm e h i hh he hi
  · rw [hmid]
    exact weightsExp_middle e h hh he

/-- Witness for the amended C3 at window size 5 and edge weight 50. -/
theorem C3_witness :
    ((5 : ℕ) % 2 = 1 ∧ (3 : ℕ) ≤ 5 ∧ (0 : ℚ) < 50 ∧ (50 : ℚ) ≤ 100) ∧
    ((weightsLin 50 5).length = 5 ∧
      (∀ i : ℕ, i < 5 → (weightsLin 50 5)[i]? = (weightsLin 50 5)[5 - 1 - i]?) ∧
      (weightsLin 50 5)[5 / 2]? = some 100 ∧
      (∀ x ∈ weightsLin 50 5, x ≤ 100) ∧
      (weightsExp 50 5).length = 5 ∧
      (∀ i : ℕ, i < 5 → (weightsExp 50 5)[i]? = (weightsExp 50 5)[5 - 1 - i]?) ∧
      (weightsExp 50 5)[5 / 2]? = some 100 ∧
      (∀ x ∈ weightsExp 50 5, x ≤ (100 : ℝ))) :=
  ⟨⟨by decide, by decide, by decide, by decide⟩,
    C3_weight_vector_shape_amended 5 50 (by decide) (by decide) (by decide) (by decide)⟩

/-! ## Concrete exponential weights at window size 3 (for C8) -/

lemma geomspace_50_100 : geomspace (50 : ℝ) 100 2 = [50, 100] := by
  unfold geomspace
  norm_num [List.range_succ, Real.rpow_zero, Real.rpow_one]

lemma geomspace_100_50 : geomspace (100 : ℝ) 50 2 = [100, 50] := by
  unfold geomspace
  norm_num [List.range_succ, Real.rpow_zero, Real.rpow_one]

lemma weightsExp_50_3 : weightsExp 50 3 = [(50 : ℝ), 100, 50] := by
  unfold weightsExp
  have hc : ((50 : ℚ) : ℝ) = (50 : ℝ) := by norm_num
  rw [show (3 / 2 + 1 : ℕ) = 2 from rfl, hc, geomspace_50_100, geomspace_100_50]
  rfl

/-- **C8, counterexample.** With window size 3 and edge weight 50 the code
computes `num = 3 // 2 + 1 = 2`, so the rising half of the exponential
weights is the 2-element list `[50, 100]` — no intermediate geometric mean —
and the full weight vector is the symmetric `[50, 100, 50]`, not the claimed
`[50, ~70.71, 100]` (whose exact value would be `√(50·100) = √5000`). -/
theorem C8_counterexample_weight_vector :
    weightsExp 50 3 = [(50 : ℝ), 100, 50] ∧
    weightsExp 50 3 ≠ [(50 : ℝ), Real.sqrt 5000, 100] ∧
    (geomspace (50 : ℝ) 100 (3 / 2 + 1)).length = 2 := by
  refine ⟨weightsExp_50_3, ?_, ?_⟩
  · rw [weightsExp_50_3]
    intro hcontra
    simp only [List.cons.injEq] at hcontra
    exact absurd hcontra.2.2.1 (by norm_num)
  · rw [show (3 / 2 + 1 : ℕ) = 2 from rfl]
    exact length_geomspace 50 100 2

/-- **C8, amended.** For window size 3 and edge weight 50 in the Exponential
model, the rising half is the `3 // 2 + 1 = 2` values `[50, 100]` (endpoints
only, no interior geometric interpolation point), and the full weight vector
is `[50, 100, 50]`. -/
theorem C8_rising_half_amended :
    geomspace (50 : ℝ) 100 (3 / 2 + 1) = [50, 100] ∧
    weightsExp 50 3 = [(50 : ℝ), 100, 50] :=
  ⟨by rw [show (3 / 2 + 1 : ℕ) = 2 from rfl]; exact geomspace_50_100, weightsExp_50_3⟩

end HydropathyPlot
